import Mathlib

/-!
# Verification of the card-maker rendering core

A shallow embedding of `src/App.tsx`: the pure layout helpers (`roundRect`
radius clamping, `fitContain`), the race-tag resolution and header layout,
the technique grid, and the form state machine (React `useState` fields with
their event handlers).  JavaScript numbers are idealised as exact rationals
(`ℚ`); where the behaviour of IEEE special values matters (division by zero
in `fitContain`) a dedicated value domain `JSVal` with `Infinity`/`NaN`
arithmetic is used.  JavaScript strings are modelled as `List Char`
(UTF-16 code units; all characters occurring here are in the BMP, where one
code unit is one character).
-/

namespace CardMaker

/-- The four frame styles (`type FrameStyle = "neo" | "classic" | "dark" | "holo"`). -/
inductive FrameStyle
  | neo
  | classic
  | dark
  | holo
deriving DecidableEq

/-- `const CANVAS_W = 720`. -/
def CANVAS_W : ℚ := 720

/-- `const CANVAS_H = 1136`. -/
def CANVAS_H : ℚ := 1136

/-- `const DEFAULT_RACES = [...]` — the preset race list. -/
def DEFAULT_RACES : List (List Char) :=
  ["魔族".toList, "人間".toList, "獣".toList, "機械".toList, "不死".toList,
   "精霊".toList, "龍".toList, "天使".toList, "悪魔".toList]

/-- JavaScript `a || b` on strings: `a` when truthy (non-empty), else `b`. -/
def jsOr (a b : List Char) : List Char := if a = [] then b else a

/-- The radius actually used by `roundRect`: the source clamps via
`if (r > min / 2) r = min / 2` with `min = Math.min(w, h)`. -/
def roundRectRadius (w h r : ℚ) : ℚ :=
  if r > min w h / 2 then min w h / 2 else r

/-- Result record of `fitContain` (`{ w, h, x, y }`). -/
structure FitResult where
  w : ℚ
  h : ℚ
  x : ℚ
  y : ℚ
deriving DecidableEq

/-- `fitContain(srcW, srcH, dstW, dstH)` over exact rationals:
`ratio = Math.min(dstW / srcW, dstH / srcH)`, scaled sizes `src * ratio`,
offsets `(dst - scaled) / 2`. -/
def fitContain (srcW srcH dstW dstH : ℚ) : FitResult :=
  let ratio := min (dstW / srcW) (dstH / srcH)
  { w := srcW * ratio
    h := srcH * ratio
    x := (dstW - srcW * ratio) / 2
    y := (dstH - srcH * ratio) / 2 }

/-- JavaScript number values relevant to `fitContain` on degenerate input:
a finite value (kept exact as a rational), the two infinities, and `NaN`. -/
inductive JSVal
  | num (q : ℚ)
  | inf
  | ninf
  | nan
deriving DecidableEq

/-- IEEE/JS division.  `a / 0` is `±Infinity` for `a ≠ 0` (zeros here are
`+0`, the only zero producible by the surrounding code) and `0 / 0 = NaN`. -/
def jdiv : JSVal → JSVal → JSVal
  | .nan, _ => .nan
  | _, .nan => .nan
  | .num a, .num b =>
      if b = 0 then (if a = 0 then .nan else if 0 < a then .inf else .ninf)
      else .num (a / b)
  | .num _, .inf => .num 0
  | .num _, .ninf => .num 0
  | .inf, .num b => if 0 ≤ b then .inf else .ninf
  | .ninf, .num b => if 0 ≤ b then .ninf else .inf
  | .inf, _ => .nan
  | .ninf, _ => .nan

/-- IEEE/JS multiplication; `0 * ±Infinity = NaN`. -/
def jmul : JSVal → JSVal → JSVal
  | .nan, _ => .nan
  | _, .nan => .nan
  | .num a, .num b => .num (a * b)
  | .num a, .inf => if a = 0 then .nan else if 0 < a then .inf else .ninf
  | .num a, .ninf => if a = 0 then .nan else if 0 < a then .ninf else .inf
  | .inf, .num b => if b = 0 then .nan else if 0 < b then .inf else .ninf
  | .ninf, .num b => if b = 0 then .nan else if 0 < b then .ninf else .inf
  | .inf, .inf => .inf
  | .inf, .ninf => .ninf
  | .ninf, .inf => .ninf
  | .ninf, .ninf => .inf

/-- IEEE/JS subtraction; `Infinity - Infinity = NaN`. -/
def jsub : JSVal → JSVal → JSVal
  | .nan, _ => .nan
  | _, .nan => .nan
  | .num a, .num b => .num (a - b)
  | .num _, .inf => .ninf
  | .num _, .ninf => .inf
  | .inf, .num _ => .inf
  | .ninf, .num _ => .ninf
  | .inf, .inf => .nan
  | .inf, .ninf => .inf
  | .ninf, .inf => .ninf
  | .ninf, .ninf => .nan

/-- JS `Math.min`: `NaN` if either argument is `NaN`, otherwise the order
on the extended line. -/
def jmin : JSVal → JSVal → JSVal
  | .nan, _ => .nan
  | _, .nan => .nan
  | .num a, .num b => .num (min a b)
  | .num a, .inf => .num a
  | .inf, .num b => .num b
  | .num _, .ninf => .ninf
  | .ninf, .num _ => .ninf
  | .inf, .inf => .inf
  | .inf, .ninf => .ninf
  | .ninf, .inf => .ninf
  | .ninf, .ninf => .ninf

/-- `true` exactly on finite (non-`NaN`, non-infinite) values. -/
def JSVal.finite : JSVal → Bool
  | .num _ => true
  | _ => false

/-- `fitContain` result over `JSVal`. -/
structure JSFit where
  w : JSVal
  h : JSVal
  x : JSVal
  y : JSVal
deriving DecidableEq

/-- `fitContain` with JS special-value arithmetic, mirroring the source
line by line (no zero guard is present in the source). -/
def fitContainJS (srcW srcH dstW dstH : JSVal) : JSFit :=
  let ratio := jmin (jdiv dstW srcW) (jdiv dstH srcH)
  let w := jmul srcW ratio
  let h := jmul srcH ratio
  { w := w
    h := h
    x := jdiv (jsub dstW w) (.num 2)
    y := jdiv (jsub dstH h) (.num 2) }

/-! ### Header strip and race tag (render step 3) -/

/-- `const headerH = 132`. -/
def headerH : ℚ := 132

/-- `const headerX = 32`. -/
def headerX : ℚ := 32

/-- `const headerY = 64`. -/
def headerY : ℚ := 64

/-- `const headerW = CANVAS_W - headerX * 2`. -/
def headerW : ℚ := CANVAS_W - headerX * 2

/-- `const tagMarginRight = 40`. -/
def tagMarginRight : ℚ := 40

/-- `const raceText = (raceCustom || racePreset || "").slice(0, 6)`. -/
def raceText (raceCustom racePreset : List Char) : List Char :=
  (jsOr raceCustom (jsOr racePreset [])).take 6

/-- `reservedRight`: `0`, set to `tagW + tagMarginRight + 8` (with
`tagW = 64`) when `raceText` is truthy. -/
def reservedRight (rt : List Char) : ℚ :=
  if rt = [] then 0 else 64 + tagMarginRight + 8

/-- The x coordinate at which the right-aligned username is drawn:
`headerX + headerW - 16 - reservedRight`.  Right-aligned text extends to
the left of this coordinate only. -/
def usernameRightX (rt : List Char) : ℚ :=
  headerX + headerW - 16 - reservedRight rt

/-- Left edge of the race tag badge: `CANVAS_W - tagW - tagMarginRight`
with `tagW = 64` (the badge is only drawn when `raceText` is truthy). -/
def tagLeftX : ℚ := CANVAS_W - 64 - tagMarginRight

/-! ### Technique grid (render step 5) -/

/-- `const gridW = CANVAS_W - 96`. -/
def gridW : ℚ := CANVAS_W - 96

/-- `const gridH = 240`. -/
def gridH : ℚ := 240

/-- `const gx = 48`. -/
def gx : ℚ := 48

/-- `const gy = CANVAS_H - gridH - 64`. -/
def gy : ℚ := CANVAS_H - gridH - 64

/-- `const cellW = gridW / cols` (`cols = classCount`). -/
def cellW (cols : ℕ) : ℚ := gridW / cols

/-- `const cellH = gridH / rows` (`rows = 6`). -/
def cellH : ℚ := gridH / 6

/-- `techniques[index] || ""`: out-of-range indexing yields `undefined`,
which `|| ""` turns into the empty string. -/
def jsIndexOrEmpty (ts : List (List Char)) (i : ℕ) : List Char :=
  match ts.get? i with
  | some s => jsOr s []
  | none => []

/-- The text painted into a grid cell:
`const t = (techniques[index] || "").slice(0, 18)`. -/
def drawnTechText (ts : List (List Char)) (i : ℕ) : List Char :=
  (jsIndexOrEmpty ts i).take 18

/-- One painted technique cell: its top-left corner and its text. -/
structure TechCell where
  x : ℚ
  y : ℚ
  text : List Char
deriving DecidableEq

/-- The cell the loop body paints for column `c`, row `r`:
`index = c * rows + r`, `x = gx + c * cellW`, `y2 = gy + r * cellH`. -/
def techCell (cols : ℕ) (ts : List (List Char)) (c r : ℕ) : TechCell :=
  { x := gx + (c : ℚ) * cellW cols
    y := gy + (r : ℚ) * cellH
    text := drawnTechText ts (c * 6 + r) }

/-- The technique grid as the sequence of cells painted by the nested loop
`for (c = 0; c < cols; c++) for (r = 0; r < rows; r++)`. -/
def techGridCells (cols : ℕ) (ts : List (List Char)) : List TechCell :=
  (List.range cols).flatMap fun c => (List.range 6).map fun r => techCell cols ts c r

/-! ### Form state machine (the `useState` fields and their handlers) -/

/-- The mutable form state owned by the component. -/
structure AppState where
  frame : FrameStyle
  classCount : ℕ
  title : List Char
  username : List Char
  monsterName : List Char
  exName : List Char
  battleMeme : List Char
  racePreset : List Char
  raceCustom : List Char
  techniques : List (List Char)
  useDefaultIllust : Bool
  uploadURL : Option (List Char)
deriving DecidableEq

/-- The initial state of every `useState` call. -/
def initState : AppState :=
  { frame := .neo
    classCount := 1
    title := "魔王スミノフ".toList
    username := []
    monsterName := []
    exName := []
    battleMeme := []
    racePreset := DEFAULT_RACES.headD []
    raceCustom := []
    techniques := List.replicate 24 []
    useDefaultIllust := true
    uploadURL := none }

/-- The state-changing events the UI can fire. -/
inductive Event
  | setFrame (f : FrameStyle)
  | setClassCount (n : ℕ)
  | setTitle (s : List Char)
  | setUsername (s : List Char)
  | setMonsterName (s : List Char)
  | setExName (s : List Char)
  | setBattleMeme (s : List Char)
  | setRacePreset (s : List Char)
  | setRaceCustom (s : List Char)
  | techniqueChange (i : ℕ) (v : List Char)
  | setUseDefaultIllust (b : Bool)
  | upload (s : List Char)
  | reset

/-- Constraints the UI widgets impose on events: the class-count slider has
`min={1} max={4}`, and technique inputs exist only for
`idx = c * 6 + r < classCount * 6`. -/
def validEvent (s : AppState) : Event → Prop
  | .setClassCount n => 1 ≤ n ∧ n ≤ 4
  | .techniqueChange i _ => i < s.classCount * 6
  | _ => True

/-- The state transition for each event, transcribing each `onChange` /
`onClick` handler.  `techniqueChange` is `handleTechniqueChange`:
copy the array and overwrite one slot.  `reset` is the reset button's
`onClick`: note that it does NOT touch `classCount` or `frame`. -/
def step (s : AppState) : Event → AppState
  | .setFrame f => { s with frame := f }
  | .setClassCount n => { s with classCount := n }
  | .setTitle v => { s with title := v }
  | .setUsername v => { s with username := v }
  | .setMonsterName v => { s with monsterName := v }
  | .setExName v => { s with exName := v }
  | .setBattleMeme v => { s with battleMeme := v }
  | .setRacePreset v => { s with racePreset := v }
  | .setRaceCustom v => { s with raceCustom := v }
  | .techniqueChange i v => { s with techniques := s.techniques.set i v }
  | .setUseDefaultIllust b => { s with useDefaultIllust := b }
  | .upload v => { s with uploadURL := some v, useDefaultIllust := s.useDefaultIllust }
  | .reset =>
      { s with
        title := []
        username := []
        monsterName := []
        exName := []
        battleMeme := []
        racePreset := DEFAULT_RACES.headD []
        raceCustom := []
        techniques := List.replicate 24 []
        useDefaultIllust := true
        uploadURL := none }

/-- States reachable from the initial state through valid UI events.  Every
snapshot consumed by a render pass is such a state. -/
inductive Reachable : AppState → Prop
  | base : Reachable initState
  | next (s : AppState) (e : Event) : Reachable s → validEvent s e → Reachable (step s e)

/-! ## Theorems -/

/-- Claim C2: for strictly positive source and destination dimensions,
`fitContain` returns `src * ratio` with `ratio = min(dstW/srcW, dstH/srcH)`
and centring offsets `(dst - scaled)/2`; the scaled box never exceeds the
destination box on either axis and the margins on each axis are split
equally; in particular `fitContain(400,200,200,200)` yields width `200`,
height `100`, offsets `(0, 50)`. -/
theorem fitContain_contain_centered :
    (∀ sw sh dw dh : ℚ, 0 < sw → 0 < sh → 0 < dw → 0 < dh →
      (fitContain sw sh dw dh).w = sw * min (dw / sw) (dh / sh) ∧
      (fitContain sw sh dw dh).h = sh * min (dw / sw) (dh / sh) ∧
      (fitContain sw sh dw dh).x = (dw - (fitContain sw sh dw dh).w) / 2 ∧
      (fitContain sw sh dw dh).y = (dh - (fitContain sw sh dw dh).h) / 2 ∧
      (fitContain sw sh dw dh).w ≤ dw ∧
      (fitContain sw sh dw dh).h ≤ dh ∧
      (fitContain sw sh dw dh).x
        = dw - ((fitContain sw sh dw dh).x + (fitContain sw sh dw dh).w) ∧
      (fitContain sw sh dw dh).y
        = dh - ((fitContain sw sh dw dh).y + (fitContain sw sh dw dh).h)) ∧
    fitContain 400 200 200 200 = { w := 200, h := 100, x := 0, y := 50 } := by
  constructor
  · intro sw sh dw dh hsw hsh hdw hdh
    have hw : sw * min (dw / sw) (dh / sh) ≤ dw := by
      calc sw * min (dw / sw) (dh / sh) ≤ sw * (dw / sw) :=
            mul_le_mul_of_nonneg_left (min_le_left _ _) hsw.le
        _ = dw := by field_simp
    have hh : sh * min (dw / sw) (dh / sh) ≤ dh := by
      calc sh * min (dw / sw) (dh / sh) ≤ sh * (dh / sh) :=
            mul_le_mul_of_nonneg_left (min_le_right _ _) hsh.le
        _ = dh := by field_simp
    refine ⟨rfl, rfl, rfl, rfl, hw, hh, ?_, ?_⟩
    · show (dw - sw * min (dw / sw) (dh / sh)) / 2
        = dw - ((dw - sw * min (dw / sw) (dh / sh)) / 2 + sw * min (dw / sw) (dh / sh))
      ring
    · show (dh - sh * min (dw / sw) (dh / sh)) / 2
        = dh - ((dh - sh * min (dw / sw) (dh / sh)) / 2 + sh * min (dw / sw) (dh / sh))
      ring
  · norm_num [fitContain, min_def]

/-- Witness for C2 at `(srcW, srcH, dstW, dstH) = (400, 200, 200, 200)`. -/
theorem fitContain_contain_centered_witness :
    (0 : ℚ) < 400 ∧
    (fitContain 400 200 200 200).w ≤ 200 ∧
    (fitContain 400 200 200 200).h ≤ 200 ∧
    (fitContain 400 200 200 200).x
      = 200 - ((fitContain 400 200 200 200).x + (fitContain 400 200 200 200).w) := by
  have h := fitContain_contain_centered.1 400 200 200 200
    (by norm_num) (by norm_num) (by norm_num) (by norm_num)
  exact ⟨by norm_num, h.2.2.2.2.1, h.2.2.2.2.2.1, h.2.2.2.2.2.2.1⟩

/-- Claim C7: the radius actually used by `roundRect` is
`min(r, min(w,h)/2)` for every box and requested radius; in particular
radius `50` on a `40 × 20` box is clamped to `10`. -/
theorem roundRect_radius_clamp :
    (∀ w h r : ℚ, roundRectRadius w h r = min r (min w h / 2)) ∧
    roundRectRadius 40 20 50 = 10 := by
  constructor
  · intro w h r
    unfold roundRectRadius
    rcases le_or_lt r (min w h / 2) with hle | hlt
    · rw [if_neg (not_lt.mpr hle), min_eq_left hle]
    · rw [if_pos hlt, min_eq_right hlt.le]
  · norm_num [roundRectRadius, min_def]

/-- Claim C6 (corrected): `fitContain` performs its divisions unguarded.
When exactly one of `srcW`, `srcH` is zero and the other source dimension
and both destination dimensions are strictly positive, all four outputs
happen to be finite (the degenerate axis gets extent `0`, the other fills
the destination). -/
theorem fitContainJS_zero_axis :
    ∀ q dw dh : ℚ, 0 < q → 0 < dw → 0 < dh →
      fitContainJS (.num 0) (.num q) (.num dw) (.num dh)
        = { w := .num 0, h := .num dh, x := .num (dw / 2), y := .num 0 } ∧
      fitContainJS (.num q) (.num 0) (.num dw) (.num dh)
        = { w := .num dw, h := .num 0, x := .num 0, y := .num (dh / 2) } := by
  intro q dw dh hq hdw hdh
  have hq0 : q ≠ 0 := hq.ne'
  have h1 : q * (dh / q) = dh := by field_simp
  have h2 : q * (dw / q) = dw := by field_simp
  constructor
  · simp [fitContainJS, jdiv, jmin, jmul, jsub, hq0, hdw, hdh, hdw.ne', hdh.ne', h1]
  · simp [fitContainJS, jdiv, jmin, jmul, jsub, hq0, hdw, hdh, hdw.ne', hdh.ne', h2]

/-- Witness for C6's amended theorem at `(0, 200, 200, 200)`. -/
theorem fitContainJS_zero_axis_witness :
    (0 : ℚ) < 200 ∧
    fitContainJS (.num 0) (.num 200) (.num 200) (.num 200)
      = { w := .num 0, h := .num 200, x := .num 100, y := .num 0 } := by
  have h := fitContainJS_zero_axis 200 200 200 (by norm_num) (by norm_num) (by norm_num)
  have h100 : (200 : ℚ) / 2 = 100 := by norm_num
  refine ⟨by norm_num, ?_⟩
  rw [h.1, h100]

/-- Counterexample to C6 as stated: with both source dimensions zero the
source computes `0 * Infinity`, so every output is `NaN`, not finite. -/
theorem fitContainJS_zero_zero_nan :
    fitContainJS (.num 0) (.num 0) (.num 200) (.num 200)
      = { w := .nan, h := .nan, x := .nan, y := .nan } ∧
    (fitContainJS (.num 0) (.num 0) (.num 200) (.num 200)).w.finite = false := by
  constructor
  · norm_num [fitContainJS, jdiv, jmin, jmul, jsub]
  · norm_num [fitContainJS, jdiv, jmin, jmul, jsub, JSVal.finite]

/-- Claim C5: the resolved race text is the custom string if non-empty,
else the preset, truncated to at most 6 code units; the tag is drawn iff
this text is non-empty; when drawn, the fixed reserved width (112) is
subtracted from the username's right-aligned x, which then lies strictly
left of the tag's left edge; with both race fields empty no width is
reserved and the username x reverts to the no-tag value. -/
theorem race_tag_layout :
    ∀ custom preset : List Char,
      raceText custom preset = (if custom = [] then preset.take 6 else custom.take 6) ∧
      (raceText custom preset).length ≤ 6 ∧
      (¬raceText custom preset = [] ↔ (custom ≠ [] ∨ preset ≠ [])) ∧
      usernameRightX (raceText custom preset)
        = (if raceText custom preset = [] then headerX + headerW - 16
           else headerX + headerW - 16 - (64 + tagMarginRight + 8)) ∧
      (raceText custom preset ≠ [] → usernameRightX (raceText custom preset) < tagLeftX) ∧
      (custom = [] → preset = [] →
        reservedRight (raceText custom preset) = 0 ∧
        usernameRightX (raceText custom preset) = headerX + headerW - 16) := by
  intro custom preset
  rcases custom with _ | ⟨a, cs⟩ <;> rcases preset with _ | ⟨b, ps⟩ <;>
    simp [raceText, jsOr, usernameRightX, reservedRight, tagLeftX, headerX, headerW,
      CANVAS_W, tagMarginRight, List.length_take_le] <;>
    norm_num

/-- Witness for C5: preset `"魔族"` with empty custom draws the tag with
text `"魔族"`; with both fields empty nothing is reserved. -/
theorem race_tag_layout_witness :
    raceText [] "魔族".toList = "魔族".toList ∧
    raceText [] "魔族".toList ≠ [] ∧
    usernameRightX (raceText [] "魔族".toList) < tagLeftX ∧
    raceText [] [] = [] ∧
    reservedRight (raceText [] []) = 0 ∧
    usernameRightX (raceText [] []) = headerX + headerW - 16 := by
  have h1 := race_tag_layout [] "魔族".toList
  have h2 := race_tag_layout [] []
  have hne : raceText [] "魔族".toList ≠ [] := h1.2.2.1.mpr (Or.inr (by decide))
  refine ⟨?_, hne, h1.2.2.2.2.1 hne, ?_, (h2.2.2.2.2.2 rfl rfl).1, (h2.2.2.2.2.2 rfl rfl).2⟩
  · rw [h1.1]; decide
  · rw [h2.1]; decide

/-- Claim C8: the text drawn in a technique cell is exactly the (at most)
18-code-unit leading slice of the technique string, with nothing added; a
30-character string renders exactly its first 18 characters. -/
theorem technique_truncation :
    ∀ (ts : List (List Char)) (i : ℕ) (s : List Char), ts.get? i = some s →
      drawnTechText ts i = s.take 18 ∧
      (drawnTechText ts i).length ≤ 18 ∧
      (s.length = 30 →
        (drawnTechText ts i).length = 18 ∧ drawnTechText ts i ++ s.drop 18 = s) := by
  intro ts i s hs
  have hjs : jsIndexOrEmpty ts i = s := by
    have hs' : ts[i]? = some s := by rw [← List.get?_eq_getElem?]; exact hs
    cases s <;> simp [jsIndexOrEmpty, hs', jsOr]
  refine ⟨by simp [drawnTechText, hjs], by simp [drawnTechText, List.length_take_le], ?_⟩
  intro h30
  constructor
  · simp [drawnTechText, hjs, List.length_take, h30]
  · simp [drawnTechText, hjs, List.take_append_drop]

/-- Witness for C8 at a technique string of 30 characters. -/
theorem technique_truncation_witness :
    ([List.replicate 30 'x'] : List (List Char)).get? 0 = some (List.replicate 30 'x') ∧
    drawnTechText [List.replicate 30 'x'] 0 = (List.replicate 30 'x').take 18 ∧
    (drawnTechText [List.replicate 30 'x'] 0).length = 18 := by
  have h := technique_truncation [List.replicate 30 'x'] 0 (List.replicate 30 'x') rfl
  exact ⟨rfl, h.1, (h.2.2 (by decide)).1⟩

/-- The nested paint loop, indexed: block `c` of the flattened cell list
has length `m` per column, so the whole list has length `n * m`. -/
theorem flatMapRangeMap_length {α : Type} (g : ℕ → ℕ → α) (m n : ℕ) :
    ((List.range n).flatMap fun c => (List.range m).map (g c)).length = n * m := by
  induction n with
  | zero => simp
  | succ k ih => simp [List.range_succ, List.flatMap_append, ih, Nat.succ_mul]

/-- The `(c * m + r)`-th element painted by the nested loop is the body at
outer index `c`, inner index `r`. -/
theorem flatMapRangeMap_get {α : Type} (g : ℕ → ℕ → α) (m n c r : ℕ)
    (hc : c < n) (hr : r < m) :
    ((List.range n).flatMap fun c => (List.range m).map (g c)).get? (c * m + r)
      = some (g c r) := by
  induction n with
  | zero => exact absurd hc (Nat.not_lt_zero c)
  | succ k ih =>
      rw [List.range_succ, List.flatMap_append]
      rcases Nat.lt_or_ge c k with h | h
      · rw [List.get?_append]
        · exact ih h
        · rw [flatMapRangeMap_length]
          calc c * m + r < c * m + m := by omega
            _ = (c + 1) * m := by ring
            _ ≤ k * m := Nat.mul_le_mul_right m h
      · have hck : c = k := Nat.le_antisymm (Nat.lt_succ_iff.mp hc) h
        subst hck
        have hlen : ((List.range c).flatMap fun j => (List.range m).map (g j)).length
            = c * m := flatMapRangeMap_length g m c
        rw [List.get?_append_right (by rw [hlen]; exact Nat.le_add_right _ _)]
        rw [hlen, Nat.add_sub_cancel_left]
        simp [List.get?_map, List.getElem?_range hr]

/-- The cell text is the 18-slice of the `getD`-style lookup. -/
theorem drawnTechText_eq_getD (ts : List (List Char)) (i : ℕ) :
    drawnTechText ts i = (ts.getD i []).take 18 := by
  unfold drawnTechText jsIndexOrEmpty
  cases h : ts.get? i with
  | none =>
      rw [List.get?_eq_getElem?] at h
      simp [List.getD_eq_getElem?_getD, h]
  | some s =>
      rw [List.get?_eq_getElem?] at h
      cases s <;> simp [jsOr, List.getD_eq_getElem?_getD, h]

/-- Claim C4: for every class count in `[1,4]`, the cell painted at column
`c`, row `r` is the `(c*6+r)`-th cell of the pass, sits at
`(gx + c*cellW, gy + r*cellH)`, and displays `techniques[c*6+r]`
(column-major ordering). -/
theorem tech_grid_column_major :
    ∀ (n : ℕ) (ts : List (List Char)) (c r : ℕ), 1 ≤ n → n ≤ 4 → c < n → r < 6 →
      (techGridCells n ts).get? (c * 6 + r) = some (techCell n ts c r) ∧
      (techCell n ts c r).x = gx + (c : ℚ) * cellW n ∧
      (techCell n ts c r).y = gy + (r : ℚ) * cellH ∧
      (techCell n ts c r).text = (ts.getD (c * 6 + r) []).take 18 := by
  intro n ts c r h1 h4 hc hr
  exact ⟨flatMapRangeMap_get (techCell n ts) 6 n c r hc hr, rfl, rfl,
    drawnTechText_eq_getD ts (c * 6 + r)⟩

/-- Witness for C4: with `classCount = 2`, `techniques[7]` is the cell in
the second column, second row (the 7th painted cell), not a row-major slot. -/
theorem tech_grid_column_major_witness :
    (techGridCells 2 (List.replicate 7 ([] : List Char) ++ [['s']])).get? 7
      = some (techCell 2 (List.replicate 7 ([] : List Char) ++ [['s']]) 1 1) ∧
    (techCell 2 (List.replicate 7 ([] : List Char) ++ [['s']]) 1 1).text = ['s'] ∧
    1 * 6 + 1 = 7 ∧ 1 * 2 + 1 ≠ 7 := by
  have h := tech_grid_column_major 2 (List.replicate 7 ([] : List Char) ++ [['s']]) 1 1
    (by norm_num) (by norm_num) (by norm_num) (by norm_num)
  refine ⟨h.1, ?_, by norm_num, by norm_num⟩
  rw [h.2.2.2]
  decide

/-- Claim C9: the grid renderer is total in the techniques array — a cell
whose index has no entry renders the empty string (the `|| ""` fallback),
never placeholder text such as `"undefined"`. -/
theorem tech_grid_total :
    ∀ (ts : List (List Char)) (n c r : ℕ), 1 ≤ n → n ≤ 4 → c < n → r < 6 →
      ts.get? (c * 6 + r) = none →
        (techCell n ts c r).text = [] ∧
        (techCell n ts c r).text ≠ "undefined".toList := by
  intro ts n c r h1 h4 hc hr hnone
  have hnone' : ts[c * 6 + r]? = none := by rw [← List.get?_eq_getElem?]; exact hnone
  have hempty : jsIndexOrEmpty ts (c * 6 + r) = [] := by simp [jsIndexOrEmpty, hnone']
  have htext : (techCell n ts c r).text = [] := by
    simp [techCell, drawnTechText, hempty]
  exact ⟨htext, by rw [htext]; decide⟩

/-- Witness for C9 at the empty techniques array. -/
theorem tech_grid_total_witness :
    (([] : List (List Char)).get? 0 = none) ∧ (techCell 1 [] 0 0).text = [] := by
  have h := tech_grid_total [] 1 0 0 (le_refl 1) (by norm_num) (by norm_num) (by norm_num) rfl
  exact ⟨rfl, h.1⟩

/-- Invariant of the form state machine: the techniques array always has
exactly 24 entries and the class count stays within `[1,4]`. -/
theorem reachable_inv : ∀ s : AppState, Reachable s →
    s.techniques.length = 24 ∧ 1 ≤ s.classCount ∧ s.classCount ≤ 4 := by
  intro s h
  induction h with
  | base => exact ⟨by simp [initState], by simp [initState], by simp [initState]⟩
  | next s e hs hv ih => cases e <;> simp_all [step, validEvent]

/-- Counterexample to C1 as stated: the initial state is reachable (it is
the first rendered snapshot), has `classCount = 1`, and its techniques
array has 24 entries, not `1 * 6`. -/
theorem techniques_length_invariant_cx :
    Reachable initState ∧ initState.classCount = 1 ∧
    initState.techniques.length ≠ initState.classCount * 6 :=
  ⟨Reachable.base, rfl, by decide⟩

/-- Claim C1 (amended): in every reachable state the techniques array has
exactly 24 = 4*6 entries, independent of `classCount ∈ [1,4]`; hence the
grid's `classCount * 6` reads never exceed the array, and the stated
equality `length = classCount * 6` holds exactly when `classCount = 4`. -/
theorem techniques_length_invariant :
    ∀ s : AppState, Reachable s →
      s.techniques.length = 24 ∧
      s.techniques.length = 4 * 6 ∧
      1 ≤ s.classCount ∧ s.classCount ≤ 4 ∧
      s.classCount * 6 ≤ s.techniques.length ∧
      (s.techniques.length = s.classCount * 6 ↔ s.classCount = 4) := by
  intro s h
  obtain ⟨h24, h1, h4⟩ := reachable_inv s h
  exact ⟨h24, by omega, h1, h4, by omega, by omega⟩

/-- Witness for C1's amended theorem at the initial state. -/
theorem techniques_length_invariant_witness :
    Reachable initState ∧ initState.techniques.length = 24 :=
  ⟨Reachable.base, (techniques_length_invariant initState Reachable.base).1⟩

/-- Counterexample to C3 as stated: from a reachable two-class state, the
reset button leaves `classCount` at 2 — the post-reset state is reachable
and is not single-class. -/
theorem reset_leaves_classCount_cx :
    Reachable (step (step initState (.setClassCount 2)) .reset) ∧
    (step (step initState (.setClassCount 2)) .reset).classCount = 2 := by
  have hv : validEvent initState (.setClassCount 2) := ⟨by norm_num, by norm_num⟩
  have h2 : Reachable (step initState (.setClassCount 2)) :=
    Reachable.next _ _ Reachable.base hv
  exact ⟨Reachable.next _ _ h2 trivial, rfl⟩

/-- Claim C3 (amended): the reset handler returns every field it touches to
its default — empty free-text fields, preset race `"魔族"` with empty custom
override, default illustration selection, and 24 empty technique slots —
but leaves `classCount` (and the frame style) unchanged. -/
theorem reset_defaults :
    ∀ s : AppState,
      (step s .reset).title = [] ∧
      (step s .reset).username = [] ∧
      (step s .reset).monsterName = [] ∧
      (step s .reset).exName = [] ∧
      (step s .reset).battleMeme = [] ∧
      (step s .reset).racePreset = "魔族".toList ∧
      (step s .reset).raceCustom = [] ∧
      (step s .reset).techniques = List.replicate 24 [] ∧
      (step s .reset).useDefaultIllust = true ∧
      (step s .reset).uploadURL = none ∧
      (step s .reset).classCount = s.classCount ∧
      (step s .reset).frame = s.frame := by
  intro s
  exact ⟨rfl, rfl, rfl, rfl, rfl, rfl, rfl, rfl, rfl, rfl, rfl, rfl⟩

/-- Claim C10: changing the class count never touches the techniques array
(all 24 entries are preserved, merely not all displayed), and editing one
technique slot changes exactly that index. -/
theorem techniques_frame :
    ∀ s : AppState, Reachable s →
      (∀ n : ℕ, (step s (.setClassCount n)).techniques = s.techniques) ∧
      s.techniques.length = 24 ∧
      (∀ (i : ℕ) (v : List Char), i < s.classCount * 6 →
        (step s (.techniqueChange i v)).techniques.length = 24 ∧
        (step s (.techniqueChange i v)).techniques.get? i = some v ∧
        ∀ j : ℕ, j ≠ i →
          (step s (.techniqueChange i v)).techniques.get? j = s.techniques.get? j) := by
  intro s hs
  obtain ⟨h24, h1, h4⟩ := reachable_inv s hs
  refine ⟨fun n => rfl, h24, ?_⟩
  intro i v hi
  have hilen : i < s.techniques.length := by omega
  refine ⟨by simp [step, h24], ?_, ?_⟩
  · show (s.techniques.set i v).get? i = some v
    exact List.get?_set_eq_of_lt _ hilen
  · intro j hj
    show (s.techniques.set i v).get? j = s.techniques.get? j
    exact List.get?_set_ne _ _ (Ne.symm hj)

/-- Witness for C10 at the initial state. -/
theorem techniques_frame_witness :
    (step initState (.setClassCount 3)).techniques = initState.techniques ∧
    (step initState (.techniqueChange 0 ['a'])).techniques.get? 0 = some ['a'] := by
  have h := techniques_frame initState Reachable.base
  exact ⟨h.1 3, (h.2.2 0 ['a'] (by decide)).2.1⟩

end CardMaker
